import Mathlib

/-! Verification of fks_data against its specification.

Shallow embedding of the parts of the `fks_data` repository that the
claims concern, together with theorems settling each claim.

Source files embedded:
* `src/fks_data/active_assets.py` — backfill scheduler chunking and cursor
  advancement (`BackfillScheduler.start._run_loop`, `ActiveAssetStore.advance_cursor`)
* `src/validation.py` — `compute_time_splits`
* `src/splitting.py` — `split_managed_csv` (row partitioning by inclusive bounds)
* `src/adapters/multi_provider_manager.py` — `ProviderHealth`,
  `MultiProviderManager.get_data`, `MultiProviderManager._verify_data`
* `src/adapters/base.py` — `APIAdapter._request_with_retries`
* `src/adapters/binance.py` — `BinanceAdapter._normalize`
* `src/processors/delta_scanner.py` — `DeltaScanner`, `PriceChange.to_binary`
* `src/validators/quality_scorer.py` — `QualityScorer.__init__`
* `src/store.py` — `upsert_ohlcv`

Machine reals (Python floats / Decimals) are modelled as rationals `ℚ`;
wall-clock instants as rationals.
-/

namespace FksData

/-! ## ProviderHealth (multi_provider_manager.py, lines 33–67)

`ProviderHealth` tracks per-provider failures and a circuit breaker.
Times (`time.time()` results) are modelled as rationals passed explicitly.
`Option ℚ` models the `Optional[float]` fields; Python truthiness of a
float (`if self.circuit_open_time and …`) is `t ≠ 0` on the wrapped value. -/

structure ProviderHealth where
  failures : ℕ
  last_failure_time : Option ℚ
  last_success_time : Option ℚ
  is_circuit_open : Bool
  circuit_open_time : Option ℚ
  deriving Repr, DecidableEq

namespace ProviderHealth

/-- Embedding of `ProviderHealth.__init__`: zero failures, closed circuit, no timestamps. -/
def init : ProviderHealth :=
  { failures := 0
    last_failure_time := none
    last_success_time := none
    is_circuit_open := false
    circuit_open_time := none }

/-- Embedding of `ProviderHealth.record_failure`, with `now` standing for `time.time()`:
increment `failures`; once `failures >= 3`, open the circuit and stamp
`circuit_open_time`. -/
def record_failure (h : ProviderHealth) (now : ℚ) : ProviderHealth :=
  let failures := h.failures + 1
  if failures ≥ 3 then
    { h with failures := failures, last_failure_time := some now,
             is_circuit_open := true, circuit_open_time := some now }
  else
    { h with failures := failures, last_failure_time := some now }

/-- Embedding of `ProviderHealth.record_success`: reset failures, close the circuit. -/
def record_success (h : ProviderHealth) (now : ℚ) : ProviderHealth :=
  { h with failures := 0, last_success_time := some now,
           is_circuit_open := false, circuit_open_time := none }

/-- Embedding of `ProviderHealth.should_retry(cooldown_seconds)`: `True` when the circuit
is closed, or when it has been open for at least `cooldown` (half-open trial).
The Python guard `if self.circuit_open_time and …` is falsy both for `None`
and for the float `0.0`. -/
def should_retry (h : ProviderHealth) (now cooldown : ℚ) : Bool :=
  if !h.is_circuit_open then
    true
  else
    match h.circuit_open_time with
    | none => false
    | some t => if t ≠ 0 ∧ now - t ≥ cooldown then true else false

/-- One recorded event on a provider's health: a failure or a success,
stamped with the `time.time()` value observed inside the recording call. -/
inductive Event where
  | failure (t : ℚ)
  | success (t : ℚ)
  deriving Repr, DecidableEq

/-- Replay a list of events (oldest first) from the initial state. -/
def run (es : List Event) : ProviderHealth :=
  es.foldl (fun h e => match e with
    | .failure t => h.record_failure t
    | .success t => h.record_success t) init

/-- Number of consecutive failures at the end of the trace, i.e. since the
most recent success (the whole trace when no success occurred). -/
def trailingFailures (es : List Event) : ℕ :=
  es.foldl (fun n e => match e with
    | .failure _ => n + 1
    | .success _ => 0) 0

/-- The `time.time()` stamp carried by an event. -/
def Event.time : Event → ℚ
  | .failure t => t
  | .success t => t

/-- Stamp of the most recent failure in the trace, if any. -/
def lastFailureTime (es : List Event) : Option ℚ :=
  es.foldl (fun acc e => match e with | .failure u => some u | .success _ => acc) none

end ProviderHealth

/-! ## Backfill scheduler (active_assets.py)

Instants are rationals measured in days, so `timedelta(days=k)` is
addition of `(k : ℚ)`. `BackfillProgress` carries the columns of the
`backfill_progress` row that the loop body reads and writes. -/

/-- Chunk size (in days) chosen per interval by `_run_loop`
(active_assets.py lines 339–346).  The initial `chunk_days = 1` in the
source is dead: the `if/elif/else` chain always overwrites it. -/
def chunkDays (itv : String) : ℕ :=
  if itv = "1d" ∨ itv = "1w" ∨ itv = "1M" then 30
  else if itv = "1h" ∨ itv = "4h" then 7
  else 2

/-- The `backfill_progress` columns used by the loop body. -/
structure BackfillProgress where
  last_cursor : Option ℚ
  target_start : Option ℚ
  target_end : Option ℚ
  last_rows : ℕ
  deriving Repr, DecidableEq

/-- Embedding of `ActiveAssetStore.advance_cursor` (active_assets.py lines 236–245):
overwrite `last_cursor` and `last_rows` for the pair. -/
def advance_cursor (p : BackfillProgress) (new_cursor : ℚ) (rows : ℕ) : BackfillProgress :=
  { p with last_cursor := some new_cursor, last_rows := rows }

/-- One pass of `_run_loop` over a single `(asset, interval)` progress row
(active_assets.py lines 348–384), with `now` standing for
`datetime.utcnow()` and `rows` for the row count the fetch produced.
`end_dt = start_dt + chunk_days`; the fetch window is clamped to
`min(end_dt, target_end)` but `advance_cursor` receives the unclamped
`end_dt`.  When the cursor already reached `target_end` the row is
skipped (`continue`). -/
def backfillStep (itv : String) (p : BackfillProgress) (now : ℚ) (rows : ℕ) :
    BackfillProgress :=
  let cd : ℚ := (chunkDays itv : ℚ)
  let end_dt : ℚ := match p.last_cursor with
    | some s => s + cd
    | none => now
  let target_end : ℚ := match p.target_end with
    | some te => te
    | none => now
  match p.last_cursor with
  | some s => if s ≥ target_end then p else advance_cursor p end_dt rows
  | none => advance_cursor p end_dt rows

/-! ## Time-based dataset splits (validation.py lines 189–221, splitting.py lines 24–47)

The datetime series of the frame is modelled as a list of rational
timestamps; the claims concern series already sorted ascending.
`compute_time_splits` is always invoked with its default ratios
`train=0.8, val=0.1, test=0.1` (so the `isclose` guard passes), and
`int(n * 0.8)` / `int(n * 0.9)` are the floors `8*n/10` / `9*n/10`. -/

/-- One `(split_name, start_ts, end_ts)` triple returned by
`compute_time_splits`. -/
structure SplitRange where
  name : String
  start_ts : ℚ
  end_ts : ℚ
  deriving Repr, DecidableEq

/-- Embedding of `compute_time_splits(df)` (validation.py lines 189–221) on the sorted
datetime series `s`: empty series gives `[]`; otherwise boundaries are the
timestamps at indices `0, int(n*0.8), int(n*0.9), n-1` and the three
ranges chain through them. -/
def compute_time_splits (s : List ℚ) : List SplitRange :=
  if s = [] then []
  else
    let n := s.length
    let i_train := n * 8 / 10
    let i_val := n * 9 / 10
    let t0 := s.getD 0 0
    let t1 := s.getD i_train 0
    let t2 := s.getD i_val 0
    let t3 := s.getD (n - 1) 0
    [⟨"train", t0, t1⟩, ⟨"val", t1, t2⟩, ⟨"test", t2, t3⟩]

/-- Row count selected for one split by `split_managed_csv`
(splitting.py line 42): rows with `a <= t <= b`, both bounds inclusive. -/
def splitRowCount (s : List ℚ) (r : SplitRange) : ℕ :=
  (s.filter (fun t => decide (r.start_ts ≤ t ∧ t ≤ r.end_ts))).length

/-- Combined row count over all returned ranges. -/
def totalSplitRows (s : List ℚ) : ℕ :=
  ((compute_time_splits s).map (splitRowCount s)).sum

/-! ## APIAdapter retry loop (base.py lines 136–157)

`_request_with_retries` loops `attempt` from `0` while
`attempt <= max_retries`, calling the HTTP client; on an exception it
raises `DataFetchError` when `attempt == max_retries`, otherwise sleeps
`base * 2**attempt` plus `random.random() * jitter` (the jitter term is
skipped when `self._backoff_jitter` is falsy) and increments `attempt`.
`u : ℕ → ℚ` supplies the `random.random()` draws, indexed by attempt.
The HTTP client is `http : ℕ → Except String V` (attempt index to
outcome); durations are rationals in seconds. -/

/-- Embedding of `FKS_API_MAX_RETRIES` default (base.py line 80). -/
def defaultMaxRetries : ℕ := 2

/-- Embedding of `FKS_API_BACKOFF_BASE` default, `0.3` seconds (base.py line 81). -/
def defaultBackoffBase : ℚ := 3/10

/-- Embedding of `FKS_API_BACKOFF_JITTER` default, `0.25` seconds (base.py line 82). -/
def defaultBackoffJitter : ℚ := 1/4

/-- Outcome of `_request_with_retries`: the value returned, or the
`DataFetchError` raised — in both cases with the number of HTTP calls
made and the list of back-off sleeps performed. -/
inductive RetryResult (V : Type) where
  | ok (v : V) (calls : ℕ) (sleeps : List ℚ)
  | fetchError (msg : String) (calls : ℕ) (sleeps : List ℚ)
  deriving Repr, DecidableEq

/-- Loop body of `_request_with_retries`, with `remaining = max_retries -
attempt` (the loop guard `attempt <= max_retries` makes this the count of
iterations still allowed after the current one). -/
def requestAux {V : Type} (base jitter : ℚ) (u : ℕ → ℚ) (http : ℕ → Except String V) :
    (attempt : ℕ) → (remaining : ℕ) → RetryResult V
  | attempt, 0 =>
    match http attempt with
    | .ok v => .ok v 1 []
    | .error e =>
      .fetchError ("failed after " ++ toString (attempt + 1) ++ " attempts: " ++ e) 1 []
  | attempt, r + 1 =>
    match http attempt with
    | .ok v => .ok v 1 []
    | .error _ =>
      let sleep := base * 2 ^ attempt + (if jitter ≠ 0 then u attempt * jitter else 0)
      match requestAux base jitter u http (attempt + 1) r with
      | .ok v c ss => .ok v (c + 1) (sleep :: ss)
      | .fetchError m c ss => .fetchError m (c + 1) (sleep :: ss)

/-- Embedding of `APIAdapter._request_with_retries` (base.py lines 136–157). -/
def request_with_retries {V : Type} (max_retries : ℕ) (base jitter : ℚ) (u : ℕ → ℚ)
    (http : ℕ → Except String V) : RetryResult V :=
  requestAux base jitter u http 0 max_retries

/-! ## Binance kline normalization (binance.py lines 137–156)

A kline payload field is a JSON number, a numeric string (on which
`float()` succeeds but integer floor-division raises `TypeError`), or a
value on which both conversions raise.  A payload is either a JSON list
of rows or something else (`dict`, `str`, …). -/

/-- A single field of a raw kline row. -/
inductive BField where
  | num (q : ℚ)
  | numStr (q : ℚ)
  | junk
  deriving Repr, DecidableEq

/-- Embedding of `int(item[0] // 1000)`: succeeds only on numbers (floor division). -/
def toTs : BField → Option ℤ
  | .num q => some ⌊q / 1000⌋
  | .numStr _ => none
  | .junk => none

/-- Embedding of `float(item[k])`: succeeds on numbers and numeric strings. -/
def toFloat : BField → Option ℚ
  | .num q => some q
  | .numStr q => some q
  | .junk => none

/-- One canonical normalized row `{ts, open, high, low, close, volume}`. -/
structure KRow where
  ts : ℤ
  open_ : ℚ
  high : ℚ
  low : ℚ
  close : ℚ
  volume : ℚ
  deriving Repr, DecidableEq

/-- Conversion of one raw row inside the `for` loop of `_normalize`
(binance.py lines 141–155): any exception (short row, junk field, string
where `//` is applied) skips the row. -/
def parseKline (item : List BField) : Option KRow := do
  let f0 ← item.get? 0
  let ts ← toTs f0
  let f1 ← item.get? 1
  let o ← toFloat f1
  let f2 ← item.get? 2
  let h ← toFloat f2
  let f3 ← item.get? 3
  let l ← toFloat f3
  let f4 ← item.get? 4
  let c ← toFloat f4
  let f5 ← item.get? 5
  let v ← toFloat f5
  pure ⟨ts, o, h, l, c, v⟩

/-- A raw Binance payload: a JSON list of rows, or any non-list value. -/
inductive RawPayload where
  | arr (items : List (List BField))
  | notList
  deriving Repr, DecidableEq

/-- The normalized result `{provider, data}`. -/
structure NormResult where
  provider : String
  data : List KRow
  deriving Repr, DecidableEq

/-- Embedding of `BinanceAdapter._normalize` (binance.py lines 137–156): raise
`DataFetchError` on a non-list payload, otherwise keep exactly the rows
whose conversion succeeds. -/
def binanceNormalize (raw : RawPayload) : Except String NormResult :=
  match raw with
  | .notList => .error "unexpected payload type"
  | .arr items => .ok ⟨"binance", items.filterMap parseKline⟩

/-! ## Delta scanner (processors/delta_scanner.py)

Prices are `Decimal`s, modelled as rationals; timestamps are plain
naturals.  `delta_pct`'s `float(...)` cast is the identity on the
rational value. -/

/-- Python `abs` on a rational (`abs(delta)` in the source), written as an
executable conditional so that concrete states evaluate. -/
def ratAbs (q : ℚ) : ℚ := if q < 0 then -q else q

/-- Embedding of `PriceDirection` (delta_scanner.py lines 23–27). -/
inductive PriceDirection where
  | up
  | down
  | neutral
  deriving Repr, DecidableEq

/-- Embedding of `PriceChange` (delta_scanner.py lines 30–51). -/
structure PriceChange where
  timestamp : ℕ
  symbol : String
  old_price : ℚ
  new_price : ℚ
  delta : ℚ
  delta_pct : ℚ
  direction : PriceDirection
  is_micro : Bool
  deriving Repr, DecidableEq

/-- Embedding of `PriceChange.to_binary` (delta_scanner.py lines 53–63): `"1"` for up,
`"0"` for down, `""` for neutral. -/
def PriceChange.to_binary (c : PriceChange) : String :=
  match c.direction with
  | .up => "1"
  | .down => "0"
  | .neutral => ""

/-- Embedding of `DeltaScanner` mutable state (delta_scanner.py lines 77–100). -/
structure DeltaScanner where
  micro_threshold : ℚ
  min_change : ℚ
  last_price : Option ℚ
  changes : List PriceChange
  total_changes : ℕ
  micro_changes : ℕ
  up_changes : ℕ
  down_changes : ℕ
  neutral_changes : ℕ
  deriving Repr, DecidableEq

namespace DeltaScanner

/-- Embedding of `DeltaScanner.__init__` with the defaults `micro_threshold=0.01`,
`min_change=0.00001`. -/
def init (micro_threshold min_change : ℚ) : DeltaScanner :=
  { micro_threshold := micro_threshold
    min_change := min_change
    last_price := none
    changes := []
    total_changes := 0
    micro_changes := 0
    up_changes := 0
    down_changes := 0
    neutral_changes := 0 }

/-- Embedding of `DeltaScanner.scan_tick` (delta_scanner.py lines 102–163): the first
tick only seeds `last_price`; afterwards each tick appends a
`PriceChange` whose direction is neutral when `|delta| < min_change`,
else up/down by the sign of `delta`. -/
def scan_tick (s : DeltaScanner) (timestamp : ℕ) (symbol : String) (price : ℚ) :
    DeltaScanner × Option PriceChange :=
  match s.last_price with
  | none => ({ s with last_price := some price }, none)
  | some last =>
    let delta := price - last
    let neutral : Bool := ratAbs delta < s.min_change
    let direction : PriceDirection :=
      if neutral then .neutral else if delta > 0 then .up else .down
    let delta_pct : ℚ := if last ≠ 0 then delta / last * 100 else 0
    let is_micro : Bool := ratAbs delta_pct < s.micro_threshold
    let change : PriceChange :=
      ⟨timestamp, symbol, last, price, delta, delta_pct, direction, is_micro⟩
    let s' : DeltaScanner :=
      { s with
        last_price := some price
        changes := s.changes ++ [change]
        total_changes := s.total_changes + 1
        neutral_changes := s.neutral_changes + (if neutral then 1 else 0)
        micro_changes := s.micro_changes + (if is_micro then 1 else 0)
        up_changes := s.up_changes + (if direction = .up then 1 else 0)
        down_changes := s.down_changes + (if direction = .down then 1 else 0) }
    (s', some change)

/-- Embedding of `DeltaScanner.get_binary_sequence` (delta_scanner.py lines 195–209):
slice the *change history* to its last `max_length` entries
(`changes[-max_length:]`, taken only when `max_length` is truthy, so
`None` and `0` keep the whole history), drop neutral changes, concatenate
`to_binary`. -/
def get_binary_sequence (s : DeltaScanner) (max_length : Option ℕ) : String :=
  let changes :=
    match max_length with
    | some m => if m ≠ 0 then s.changes.drop (s.changes.length - m) else s.changes
    | none => s.changes
  String.join
    ((changes.filter (fun c => decide (c.direction ≠ PriceDirection.neutral))).map
      PriceChange.to_binary)

/-- Fold `scan_tick` over a list of ticks `(timestamp, symbol, price)`. -/
def runScanner (s : DeltaScanner) (ticks : List (ℕ × String × ℚ)) : DeltaScanner :=
  ticks.foldl (fun st t => (st.scan_tick t.1 t.2.1 t.2.2).1) s

end DeltaScanner

/-- Direction of one consecutive price pair, exactly as `scan_tick`
classifies it. -/
def pairDirection (min_change last price : ℚ) : PriceDirection :=
  if ratAbs (price - last) < min_change then .neutral
  else if price - last > 0 then .up else .down

/-- Directions of all consecutive pairs of a price trace. -/
def traceDirections (min_change : ℚ) : List ℚ → List PriceDirection
  | [] => []
  | [_] => []
  | a :: b :: rest => pairDirection min_change a b :: traceDirections min_change (b :: rest)

/-- Symbol emitted for a direction (`PriceChange.to_binary` on the
direction alone). -/
def dirSymbol : PriceDirection → String
  | .up => "1"
  | .down => "0"
  | .neutral => ""

/-- Encode a direction list: drop neutrals, concatenate symbols. -/
def encodeDirections (ds : List PriceDirection) : String :=
  String.join ((ds.filter (fun d => decide (d ≠ PriceDirection.neutral))).map dirSymbol)

/-- Modelled from the spec sentence of C7 (the claim's reading of
`get_binary_sequence`): emit the symbols of *all* recorded non-neutral
moves first, then keep the most recent `max_length` symbols. -/
def specBinarySequence (s : DeltaScanner) (max_length : ℕ) : String :=
  let syms :=
    ((s.changes.filter (fun c => decide (c.direction ≠ PriceDirection.neutral))).map
      PriceChange.to_binary)
  String.join (syms.drop (syms.length - max_length))

/-! ## QualityScorer construction (validators/quality_scorer.py lines 79–120)

The weight guard is `np.isclose(total_weight, 1.0)` with NumPy's default
tolerances `rtol=1e-05`, `atol=1e-08`:
`|a - b| <= atol + rtol * |b|`. -/

/-- Embedding of `np.isclose(t, 1.0)` at default tolerances. -/
def npIscloseOne (t : ℚ) : Bool :=
  decide (|t - 1| ≤ 1/100000000 + 1/100000 * 1)

/-- Retained configuration of a constructed `QualityScorer`. -/
structure QualityScorer where
  outlier_weight : ℚ
  freshness_weight : ℚ
  completeness_weight : ℚ
  excellent_threshold : ℚ
  good_threshold : ℚ
  fair_threshold : ℚ
  deriving Repr, DecidableEq

/-- Embedding of `QualityScorer.__init__` (quality_scorer.py lines 79–120): raise
`ValueError` when the three weights are not `np.isclose` to summing to
`1.0`, otherwise retain all arguments unchanged. -/
def QualityScorer.init (ow fw cw et gt ft : ℚ) : Except String QualityScorer :=
  if !npIscloseOne (ow + fw + cw) then .error "Weights must sum to 1.0"
  else .ok ⟨ow, fw, cw, et, gt, ft⟩

/-! ## MultiProviderManager.get_data / _verify_data
(multi_provider_manager.py lines 111–176 and 220–291)

A provider payload is a dict whose `data` key holds a list of rows; each
row may carry `close` and/or `price`.  Python truthiness makes
`latest.get("close") or latest.get("price", 0)` fall through to `price`
when `close` is missing *or zero*.  The secondary cross-check of
`_verify_data` (lines 245–291, reached only after the empty/zero checks
pass) is abstracted as the boolean it would return. -/

/-- One row of a provider payload. -/
structure MPRow where
  close : Option ℚ
  price : Option ℚ
  deriving Repr, DecidableEq

/-- A provider payload's `data` list. -/
structure MPPayload where
  data : List MPRow
  deriving Repr, DecidableEq

/-- Embedding of `latest.get("close") or latest.get("price", 0)` on the last row. -/
def latestPrice (rows : List MPRow) : ℚ :=
  match rows.getLast? with
  | none => 0
  | some r =>
    match r.close with
    | some c => if c ≠ 0 then c else r.price.getD 0
    | none => r.price.getD 0

/-- Embedding of `MultiProviderManager._verify_data` (lines 220–243 plus the
abstracted cross-check): `False` on an empty `data` list or a zero latest
price, otherwise whatever the secondary phase yields. -/
def verifyData (d : MPPayload) (secondaryPhase : Bool) : Bool :=
  if d.data.isEmpty then false
  else if latestPrice d.data = 0 then false
  else secondaryPhase

/-- What one provider does when tried: returns a payload or raises. -/
inductive FetchOutcome where
  | ok (d : MPPayload)
  | raised
  deriving Repr, DecidableEq

/-- A provider as the `get_data` loop sees it: its name, its fetch
outcome, and the oracle for `_verify_data`'s secondary phase. -/
structure ProviderState where
  name : String
  fetch : FetchOutcome
  secondaryPhase : Bool
  deriving Repr, DecidableEq

/-- Manager configuration relevant to the loop: `verify_data`,
`cooldown_seconds`, and `len(self.providers)` (fixed over the loop). -/
structure MPConfig where
  verify_data : Bool
  cooldown_seconds : ℚ
  numProviders : ℕ
  deriving Repr, DecidableEq

/-- Point update of the health map. -/
def updateHealth (h : String → ProviderHealth) (name : String) (v : ProviderHealth) :
    String → ProviderHealth :=
  fun n => if n = name then v else h n

/-- The provider loop of `MultiProviderManager.get_data` (lines 135–176),
with `now` standing for `time.time()`: skip open circuits, record a
failure and continue on a raise or a failed verification, record a
success and return the payload otherwise; `none` models the final
`DataFetchError` when every provider was exhausted. -/
def getDataLoop (cfg : MPConfig) (now : ℚ) (health : String → ProviderHealth) :
    List ProviderState → Option (String × MPPayload) × (String → ProviderHealth)
  | [] => (none, health)
  | p :: rest =>
    let h := health p.name
    if !(h.should_retry now cfg.cooldown_seconds) then
      getDataLoop cfg now health rest
    else
      match p.fetch with
      | .raised => getDataLoop cfg now (updateHealth health p.name (h.record_failure now)) rest
      | .ok d =>
        if cfg.verify_data ∧ cfg.numProviders > 1 then
          if verifyData d p.secondaryPhase then
            (some (p.name, d), updateHealth health p.name (h.record_success now))
          else
            getDataLoop cfg now (updateHealth health p.name (h.record_failure now)) rest
        else
          (some (p.name, d), updateHealth health p.name (h.record_success now))

/-! ## upsert_ohlcv (store.py lines 59–105)

A frame cell is a number, a parseable timestamp, or a value on which
`pd.to_datetime` raises.  The numeric `float(...)` conversions inside the
row loop are individually wrapped in `try/except` and can never
propagate; the single raising site is `pd.to_datetime(work[dt_col])`
(line 73), which sits *outside* the `try` that guards the database
write.  The database write is abstracted as the boolean `dbOk`. -/

/-- A cell of the frame. -/
inductive Cell where
  | cnum (q : ℚ)
  | cts (t : ℤ)
  | cbad
  deriving Repr, DecidableEq

/-- A DataFrame: column names plus rows of cells (one cell per column). -/
structure Frame where
  cols : List String
  rows : List (List Cell)
  deriving Repr, DecidableEq

/-- Lower-case a string character-wise (`str.lower()`). -/
def strLower (s : String) : String := ⟨s.data.map Char.toLower⟩

/-- Does `pat` occur at the front of `cs`? -/
def matchesAt : List Char → List Char → Bool
  | [], _ => true
  | _ :: _, [] => false
  | p :: ps, c :: cs => p == c && matchesAt ps cs

/-- Does `pat` occur as a contiguous sublist of `cs`? -/
def hasSublist (pat : List Char) : List Char → Bool
  | [] => matchesAt pat []
  | c :: cs => matchesAt pat (c :: cs) || hasSublist pat cs

/-- Embedding of `"date" in cl or "time" in cl` on the lower-cased column name. -/
def isDtColName (c : String) : Bool :=
  hasSublist "date".data (strLower c).data || hasSublist "time".data (strLower c).data

/-- Index of the first column whose name contains `date`/`time`. -/
def findDtCol (cols : List String) : Option ℕ :=
  cols.findIdx? isDtColName

/-- Embedding of `pd.to_datetime` on a whole column raises iff some cell is
unparseable. -/
def colHasBadCell (rows : List (List Cell)) (i : ℕ) : Bool :=
  rows.any (fun r => r.getD i .cbad == .cbad)

/-- Embedding of `upsert_ohlcv` (store.py lines 59–105).  `none` models a `None`
frame; `dbOk` tells whether the batched `executemany`/`commit` succeeds.
The result is `Except`: `error` is a propagated Python exception. -/
def upsert_ohlcv (fr : Option Frame) (dbOk : Bool) : Except String ℕ :=
  match fr with
  | none => .ok 0
  | some f =>
    if f.rows.isEmpty ∨ f.cols.isEmpty then .ok 0
    else
      match findDtCol f.cols with
      | none => .ok 0
      | some i =>
        if colHasBadCell f.rows i then .error "pd.to_datetime parse error"
        else if dbOk then .ok f.rows.length else .ok 0

end FksData

namespace FksData

/-- C6 counterexample: the scheduler walks sub-hourly intervals in 2-day
chunks, not 1-day chunks: `chunkDays "1m" = 2`. -/
theorem chunk_subhourly_2 : chunkDays "1m" = 2 ∧ (2 : ℕ) ≠ 1 := by
  constructor
  · rfl
  · decide

/-- C6 (corrected): chunk sizes are 30 days for `1d`/`1w`/`1M`, 7 days for
`1h`/`4h`, and 2 days (not 1) for every other interval, sub-hourly
included. -/
theorem chunk_sizes :
    (∀ itv, (itv = "1d" ∨ itv = "1w" ∨ itv = "1M") → chunkDays itv = 30) ∧
    (∀ itv, (itv = "1h" ∨ itv = "4h") → chunkDays itv = 7) ∧
    (∀ itv, ¬(itv = "1d" ∨ itv = "1w" ∨ itv = "1M") → ¬(itv = "1h" ∨ itv = "4h") →
      chunkDays itv = 2) := by
  refine ⟨?_, ?_, ?_⟩
  · rintro itv (rfl | rfl | rfl) <;> rfl
  · rintro itv (rfl | rfl) <;> rfl
  · intro itv h1 h2
    simp [chunkDays, h1, h2]

/-- C6 witness: concrete chunk sizes for `1d`, `4h` and `5m`. -/
theorem chunk_sizes_witness :
    chunkDays "1d" = 30 ∧ chunkDays "4h" = 7 ∧ chunkDays "5m" = 2 :=
  ⟨chunk_sizes.1 "1d" (Or.inl rfl), chunk_sizes.2.1 "4h" (Or.inr rfl),
   chunk_sizes.2.2 "5m" (by simp) (by simp)⟩

/-- C1 counterexample: `advance_cursor` receives the unclamped `end_dt`
(the `min` with `target_end` only bounds the fetch window), so a written
cursor can exceed `target_end`: here the pair has cursor 0, target end 1,
and the written cursor is 30. -/
theorem cursor_overshoot :
    (backfillStep "1d" ⟨some 0, some (-365), some 1, 0⟩ 7 0).last_cursor = some 30 ∧
    ¬((30 : ℚ) ≤ 1) := by
  constructor
  · norm_num [backfillStep, chunkDays, advance_cursor]
  · norm_num

/-- C1 (corrected): over one backfill pass the cursor never decreases;
when it moves it grows by exactly `chunk_days` and only moves while
strictly below `target_end`, so every written cursor stays below
`target_end + chunk_days` — but it may exceed `target_end` itself. -/
theorem cursor_monotone (itv : String) (p : BackfillProgress) (now : ℚ) (rows : ℕ)
    (s te : ℚ) (hc : p.last_cursor = some s) (ht : p.target_end = some te) :
    ∃ s', (backfillStep itv p now rows).last_cursor = some s' ∧ s ≤ s' ∧
      (s' = s ∨ (s' = s + (chunkDays itv : ℚ) ∧ s < te ∧ s' < te + (chunkDays itv : ℚ))) := by
  obtain ⟨lc, tst, tte, lr⟩ := p
  simp only at hc ht
  subst hc ht
  by_cases h : s ≥ te
  · exact ⟨s, by simp [backfillStep, h], le_refl s, Or.inl rfl⟩
  · refine ⟨s + (chunkDays itv : ℚ), by simp [backfillStep, advance_cursor, h], ?_, ?_⟩
    · have : (0 : ℚ) ≤ (chunkDays itv : ℚ) := by positivity
      linarith
    · refine Or.inr ⟨rfl, by linarith, by linarith⟩

/-- C1 witness: a concrete pass from cursor 2 toward target end 100 on a
`1h` interval. -/
theorem cursor_monotone_witness :
    ∃ s', (backfillStep "1h" ⟨some 2, some 0, some 100, 5⟩ 50 3).last_cursor = some s' ∧
      (2 : ℚ) ≤ s' ∧
      (s' = 2 ∨ (s' = 2 + (chunkDays "1h" : ℚ) ∧ (2 : ℚ) < 100 ∧
        s' < 100 + (chunkDays "1h" : ℚ))) :=
  cursor_monotone "1h" ⟨some 2, some 0, some 100, 5⟩ 50 3 2 100 rfl rfl

end FksData

namespace FksData

/-- C8 counterexample: weights summing to 1.000001 are accepted by the
`np.isclose` guard although their sum differs from 1.0, so construction
does not raise exactly when the sum differs from 1.0. -/
theorem qs_init_accepts_offsum :
    QualityScorer.init (3/10) (3/10) (400001/1000000) 85 70 50 =
      .ok ⟨3/10, 3/10, 400001/1000000, 85, 70, 50⟩ ∧
    (3/10 + 3/10 + 400001/1000000 : ℚ) ≠ 1 := by
  constructor
  · have h : npIscloseOne (3/10 + 3/10 + 400001/1000000) = true := by
      unfold npIscloseOne
      rw [decide_eq_true_eq]
      rw [abs_le]
      norm_num
    simp [QualityScorer.init, h]
  · norm_num

/-- C8 (corrected): construction raises exactly when the weight sum lies
outside the `np.isclose` tolerance `1e-8 + 1e-5` around 1.0 — not exactly
when the sum differs from 1.0 — and on success all arguments are retained
unchanged. -/
theorem qs_init_isclose (ow fw cw et gt ft : ℚ) :
    (QualityScorer.init ow fw cw et gt ft = .error "Weights must sum to 1.0" ↔
      |ow + fw + cw - 1| > 1/100000000 + 1/100000) ∧
    (∀ q, QualityScorer.init ow fw cw et gt ft = .ok q → q = ⟨ow, fw, cw, et, gt, ft⟩) := by
  constructor
  · unfold QualityScorer.init npIscloseOne
    by_cases h : |ow + fw + cw - 1| ≤ 1/100000000 + 1/100000 * 1
    · simp only [decide_eq_true_eq, h, if_true, Bool.not_true, Bool.false_eq_true, if_false]
      constructor
      · intro hcontra
        exact absurd hcontra (by simp)
      · intro hgt
        exfalso
        linarith
    · simp only [decide_eq_true_eq, h, if_false, Bool.not_false, if_true]
      constructor
      · intro _
        have := not_le.mp h
        linarith
      · intro _
        rfl
  · intro q hq
    unfold QualityScorer.init at hq
    by_cases h : npIscloseOne (ow + fw + cw) = true
    · simp only [h, Bool.not_true, Bool.false_eq_true, if_false, Except.ok.injEq] at hq
      exact hq.symm
    · simp only [Bool.not_eq_true] at h
      simp [h] at hq

/-- C8 witness: the default-like weights 0.3, 0.3, 0.5 instantiate the
characterization. -/
theorem qs_init_isclose_witness :
    (QualityScorer.init (3/10) (3/10) (1/2) 85 70 50 = .error "Weights must sum to 1.0" ↔
      |(3/10 : ℚ) + 3/10 + 1/2 - 1| > 1/100000000 + 1/100000) ∧
    (∀ q, QualityScorer.init (3/10) (3/10) (1/2) 85 70 50 = .ok q →
      q = ⟨3/10, 3/10, 1/2, 85, 70, 50⟩) :=
  qs_init_isclose (3/10) (3/10) (1/2) 85 70 50

end FksData

namespace FksData

/-- C10 counterexample: a frame whose `time` column holds an unparseable
value makes `upsert_ohlcv` raise — `pd.to_datetime` runs outside the
guarded database write, so the function is not exception-free. -/
theorem upsert_raises_on_bad_datetime :
    upsert_ohlcv (some ⟨["time"], [[Cell.cbad]]⟩) true = .error "pd.to_datetime parse error" := by
  rfl

/-- C10 (corrected): `upsert_ohlcv` returns 0 on a missing/empty frame or
a missing datetime column, returns 0 when the database write fails, and
returns the processed row count when the write commits; the only way it
raises is an unparseable value in the detected datetime column. -/
theorem upsert_behavior (fr : Option Frame) (dbOk : Bool) :
    (upsert_ohlcv none dbOk = .ok 0) ∧
    (∀ f : Frame, (f.rows = [] ∨ f.cols = []) → upsert_ohlcv (some f) dbOk = .ok 0) ∧
    (∀ f : Frame, findDtCol f.cols = none → upsert_ohlcv (some f) dbOk = .ok 0) ∧
    (∀ f : Frame, ∀ i, findDtCol f.cols = some i → colHasBadCell f.rows i = false →
      upsert_ohlcv (some f) dbOk =
        .ok (if dbOk ∧ f.rows ≠ [] ∧ f.cols ≠ [] then f.rows.length else 0)) ∧
    (∀ e, upsert_ohlcv fr dbOk = .error e →
      ∃ f i, fr = some f ∧ findDtCol f.cols = some i ∧ colHasBadCell f.rows i = true) := by
  refine ⟨rfl, ?_, ?_, ?_, ?_⟩
  · intro f hf
    rcases hf with hf | hf <;> simp [upsert_ohlcv, hf]
  · intro f hnone
    by_cases hf : f.rows = [] ∨ f.cols = []
    · rcases hf with hf | hf <;> simp [upsert_ohlcv, hf]
    · push_neg at hf
      simp [upsert_ohlcv, hf.1, hf.2, hnone]
  · intro f i hsome hgood
    by_cases hf : f.rows = [] ∨ f.cols = []
    · have hcond : ¬(dbOk = true ∧ f.rows ≠ [] ∧ f.cols ≠ []) := by tauto
      rw [if_neg hcond]
      rcases hf with hf | hf <;> simp [upsert_ohlcv, hf]
    · push_neg at hf
      by_cases hdb : dbOk <;>
        simp [upsert_ohlcv, hf.1, hf.2, hsome, hgood, hdb]
  · intro e he
    match fr with
    | none => simp [upsert_ohlcv] at he
    | some f =>
      by_cases hf : f.rows = [] ∨ f.cols = []
      · rcases hf with hf | hf <;> simp [upsert_ohlcv, hf] at he
      · push_neg at hf
        match hdt : findDtCol f.cols with
        | none => simp [upsert_ohlcv, hf.1, hf.2, hdt] at he
        | some i =>
          refine ⟨f, i, rfl, hdt, ?_⟩
          by_cases hbad : colHasBadCell f.rows i
          · exact hbad
          · simp only [Bool.not_eq_true] at hbad
            by_cases hdb : dbOk <;>
              simp [upsert_ohlcv, hf.1, hf.2, hdt, hbad, hdb] at he

/-- C10 witness: the characterization applied to a one-row frame with a
valid timestamp column. -/
theorem upsert_behavior_witness :
    (upsert_ohlcv none true = .ok 0) ∧
    (∀ f : Frame, (f.rows = [] ∨ f.cols = []) → upsert_ohlcv (some f) true = .ok 0) ∧
    (∀ f : Frame, findDtCol f.cols = none → upsert_ohlcv (some f) true = .ok 0) ∧
    (∀ f : Frame, ∀ i, findDtCol f.cols = some i → colHasBadCell f.rows i = false →
      upsert_ohlcv (some f) true =
        .ok (if true ∧ f.rows ≠ [] ∧ f.cols ≠ [] then f.rows.length else 0)) ∧
    (∀ e, upsert_ohlcv (some ⟨["ts_time"], [[Cell.cts 5]]⟩) true = .error e →
      ∃ f i, (some ⟨["ts_time"], [[Cell.cts 5]]⟩ : Option Frame) = some f ∧
        findDtCol f.cols = some i ∧ colHasBadCell f.rows i = true) :=
  upsert_behavior (some ⟨["ts_time"], [[Cell.cts 5]]⟩) true

end FksData

namespace FksData

/-- C5 (confirmed): Binance normalization emits exactly one canonical row
per well-formed payload row, appending malformed rows never changes the
output, and `DataFetchError` is raised exactly when the top-level payload
is not a list. -/
theorem binance_normalize_spec :
    (∀ items : List (List BField),
      binanceNormalize (.arr items) = .ok ⟨"binance", items.filterMap parseKline⟩ ∧
      (items.filterMap parseKline).length = items.countP (fun it => (parseKline it).isSome)) ∧
    (∀ items bads : List (List BField), (∀ b ∈ bads, parseKline b = none) →
      binanceNormalize (.arr (items ++ bads)) = binanceNormalize (.arr items)) ∧
    (∀ raw, (∃ msg, binanceNormalize raw = .error msg) ↔ raw = .notList) := by
  refine ⟨?_, ?_, ?_⟩
  · intro items
    exact ⟨rfl, List.length_filterMap_eq_countP parseKline items⟩
  · intro items bads hbad
    simp only [binanceNormalize, List.filterMap_append, Except.ok.injEq, NormResult.mk.injEq]
    refine ⟨trivial, ?_⟩
    rw [List.filterMap_eq_nil_iff.mpr hbad, List.append_nil]
  · intro raw
    cases raw with
    | arr items =>
      simp only [binanceNormalize]
      constructor
      · rintro ⟨msg, h⟩
        exact absurd h (by simp)
      · intro h
        exact absurd h (by simp)
    | notList =>
      simp [binanceNormalize]

/-- C5 witness: a concrete kline row normalizes to its canonical form and
an appended malformed row is ignored. -/
theorem binance_normalize_spec_witness :
    binanceNormalize (.arr ([[.num 1736000000000, .numStr 100, .numStr 101, .numStr 99,
        .numStr 100, .numStr 5]] ++ [[BField.junk]])) =
      binanceNormalize (.arr [[.num 1736000000000, .numStr 100, .numStr 101, .numStr 99,
        .numStr 100, .numStr 5]]) ∧
    binanceNormalize (.arr [[.num 1736000000000, .numStr 100, .numStr 101, .numStr 99,
        .numStr 100, .numStr 5]]) =
      .ok ⟨"binance", [⟨1736000000, 100, 101, 99, 100, 5⟩]⟩ := by
  constructor
  · exact binance_normalize_spec.2.1 _ [[BField.junk]] (by intro b hb; simp at hb; subst hb; rfl)
  · have := (binance_normalize_spec.1 [[.num 1736000000000, .numStr 100, .numStr 101,
      .numStr 99, .numStr 100, .numStr 5]]).1
    rw [this]
    norm_num [parseKline, toTs, toFloat, List.filterMap]

end FksData

namespace FksData

/-- Helper: `record_failure` always increments the failure count. -/
theorem record_failure_failures (h : ProviderHealth) (t : ℚ) :
    (h.record_failure t).failures = h.failures + 1 := by
  unfold ProviderHealth.record_failure
  by_cases hge : h.failures + 1 ≥ 3 <;> simp [hge]

/-- C9 (confirmed): with verification enabled and more than one
configured provider, a primary fetch that returns an empty data list or a
zero latest close/price fails verification: the manager records a failure
against that provider and continues with the remaining providers instead
of returning that payload. -/
theorem getData_unverified_falls_through (cfg : MPConfig) (now : ℚ)
    (health : String → ProviderHealth) (p : ProviderState) (rest : List ProviderState)
    (d : MPPayload)
    (hv : cfg.verify_data = true) (hn : 1 < cfg.numProviders)
    (hr : (health p.name).should_retry now cfg.cooldown_seconds = true)
    (hf : p.fetch = .ok d)
    (hbad : d.data = [] ∨ latestPrice d.data = 0) :
    getDataLoop cfg now health (p :: rest) =
      getDataLoop cfg now (updateHealth health p.name ((health p.name).record_failure now)) rest ∧
    ((updateHealth health p.name ((health p.name).record_failure now)) p.name).failures =
      (health p.name).failures + 1 := by
  have hverify : verifyData d p.secondaryPhase = false := by
    rcases hbad with hbad | hbad
    · simp [verifyData, hbad]
    · by_cases he : d.data.isEmpty <;> simp [verifyData, he, hbad]
  constructor
  · simp only [getDataLoop, hr, Bool.not_true, Bool.false_eq_true, if_false, hf, hv, hn,
      and_true, true_and, if_true, hverify]
  · simp [updateHealth, record_failure_failures]

/-- C9 witness: a healthy primary returning an empty payload falls
through to the second provider with one failure recorded. -/
theorem getData_unverified_falls_through_witness :
    getDataLoop ⟨true, 30, 2⟩ 100 (fun _ => ProviderHealth.init)
        (⟨"binance", .ok ⟨[]⟩, true⟩ :: [⟨"cmc", .raised, true⟩]) =
      getDataLoop ⟨true, 30, 2⟩ 100
        (updateHealth (fun _ => ProviderHealth.init) "binance"
          (ProviderHealth.init.record_failure 100)) [⟨"cmc", .raised, true⟩] ∧
    ((updateHealth (fun _ => ProviderHealth.init) "binance"
        (ProviderHealth.init.record_failure 100)) "binance").failures =
      ((fun _ => ProviderHealth.init) "binance" : ProviderHealth).failures + 1 :=
  getData_unverified_falls_through ⟨true, 30, 2⟩ 100 (fun _ => ProviderHealth.init)
    ⟨"binance", .ok ⟨[]⟩, true⟩ [⟨"cmc", .raised, true⟩] ⟨[]⟩ rfl (by decide) rfl rfl
    (Or.inl rfl)

end FksData

namespace FksData
namespace ProviderHealth

theorem run_append (es : List Event) (e : Event) :
    run (es ++ [e]) = (match e with
      | .failure t => (run es).record_failure t
      | .success t => (run es).record_success t) := by
  cases e <;> simp [run, List.foldl_append]

theorem trailingFailures_append (es : List Event) (e : Event) :
    trailingFailures (es ++ [e]) = (match e with
      | .failure _ => trailingFailures es + 1
      | .success _ => 0) := by
  cases e <;> simp [trailingFailures, List.foldl_append]

theorem lastFailureTime_append (es : List Event) (e : Event) :
    lastFailureTime (es ++ [e]) = (match e with
      | .failure t => some t
      | .success _ => lastFailureTime es) := by
  cases e <;> simp [lastFailureTime, List.foldl_append]

theorem record_failure_fields (h : ProviderHealth) (t : ℚ) :
    (h.record_failure t).failures = h.failures + 1 ∧
    (h.record_failure t).is_circuit_open =
      (if h.failures + 1 ≥ 3 then true else h.is_circuit_open) ∧
    (h.record_failure t).circuit_open_time =
      (if h.failures + 1 ≥ 3 then some t else h.circuit_open_time) := by
  unfold record_failure
  by_cases h3 : h.failures + 1 ≥ 3 <;> simp [h3]

theorem run_inv (es : List Event) (hpos : ∀ e ∈ es, 0 < e.time) :
    (run es).failures = trailingFailures es ∧
    ((run es).is_circuit_open = true ↔ 3 ≤ trailingFailures es) ∧
    ((run es).is_circuit_open = true →
      ∃ t, (run es).circuit_open_time = some t ∧ lastFailureTime es = some t ∧ 0 < t) := by
  induction es using List.reverseRecOn with
  | nil =>
    refine ⟨rfl, ?_, ?_⟩
    · simp [run, init, trailingFailures]
    · intro h
      simp [run, init] at h
  | append_singleton es e ih =>
    have hpos' : ∀ x ∈ es, 0 < x.time := fun x hx => hpos x (List.mem_append_left _ hx)
    have hp : 0 < e.time := hpos e (List.mem_append_right _ (List.mem_singleton_self e))
    obtain ⟨ih1, ih2, ih3⟩ := ih hpos'
    rw [run_append, trailingFailures_append, lastFailureTime_append]
    cases e with
    | success t =>
      refine ⟨rfl, ?_, ?_⟩
      · simp [record_success]
      · intro h
        simp [record_success] at h
    | failure t =>
      obtain ⟨hrf1, hrf2, hrf3⟩ := record_failure_fields (run es) t
      dsimp only
      by_cases h3 : (run es).failures + 1 ≥ 3
      · refine ⟨?_, ?_, ?_⟩
        · rw [hrf1, ih1]
        · rw [hrf2, if_pos h3, ih1] at *
          constructor
          · intro _
            omega
          · intro _
            rfl
        · intro _
          exact ⟨t, by rw [hrf3, if_pos h3], rfl, hp⟩
      · have hopen : (run es).is_circuit_open = false := by
          by_cases hb : (run es).is_circuit_open = true
          · exfalso
            have := ih2.mp hb
            rw [ih1] at h3
            omega
          · simpa using hb
        refine ⟨?_, ?_, ?_⟩
        · rw [hrf1, ih1]
        · rw [hrf2, if_neg h3, hopen, ih1] at *
          constructor
          · intro hc
            cases hc
          · intro hc
            omega
        · intro hcontra
          rw [hrf2, if_neg h3, hopen] at hcontra
          cases hcontra

/-- C3 (confirmed): after any event trace with positive `time.time()`
stamps, the failure counter equals the run of failures since the last
success, the circuit is open exactly when that run is at least 3, while
open `should_retry` is true exactly when `cooldown` has elapsed since the
stamp written when the circuit (re)opened (the most recent failure), a
closed circuit always retries, and a single recorded success resets the
counter to zero and closes the circuit. -/
theorem circuit_breaker_spec (es : List Event) (now cooldown : ℚ)
    (hpos : ∀ e ∈ es, 0 < e.time) :
    ((run es).failures = trailingFailures es) ∧
    ((run es).is_circuit_open = true ↔ 3 ≤ trailingFailures es) ∧
    ((run es).is_circuit_open = true →
      ∃ t, (run es).circuit_open_time = some t ∧ lastFailureTime es = some t ∧ 0 < t ∧
        ((run es).should_retry now cooldown = true ↔ cooldown ≤ now - t)) ∧
    ((run es).is_circuit_open = false → (run es).should_retry now cooldown = true) ∧
    (∀ h : ProviderHealth, ∀ u : ℚ, (h.record_success u).failures = 0 ∧
      (h.record_success u).is_circuit_open = false) := by
  obtain ⟨i1, i2, i3⟩ := run_inv es hpos
  refine ⟨i1, i2, ?_, ?_, ?_⟩
  · intro hopen
    obtain ⟨t, hct, hlf, hpt⟩ := i3 hopen
    refine ⟨t, hct, hlf, hpt, ?_⟩
    unfold should_retry
    rw [hopen, hct]
    simp only [Bool.not_true, Bool.false_eq_true, if_false]
    by_cases hcd : cooldown ≤ now - t
    · have : t ≠ 0 ∧ now - t ≥ cooldown := ⟨ne_of_gt hpt, hcd⟩
      simp [this, hcd]
    · have : ¬(t ≠ 0 ∧ now - t ≥ cooldown) := fun ⟨_, hge⟩ => hcd hge
      simp [this, hcd]
  · intro hclosed
    unfold should_retry
    rw [hclosed]
    simp
  · intro h u
    exact ⟨rfl, rfl⟩

/-- C3 witness: three failures at times 1, 2, 3 with `now = 40`,
`cooldown = 30`. -/
theorem circuit_breaker_spec_witness :
    ((run [.failure 1, .failure 2, .failure 3]).failures =
      trailingFailures [.failure 1, .failure 2, .failure 3]) ∧
    ((run [.failure 1, .failure 2, .failure 3]).is_circuit_open = true ↔
      3 ≤ trailingFailures [.failure 1, .failure 2, .failure 3]) ∧
    ((run [.failure 1, .failure 2, .failure 3]).is_circuit_open = true →
      ∃ t, (run [.failure 1, .failure 2, .failure 3]).circuit_open_time = some t ∧
        lastFailureTime [.failure 1, .failure 2, .failure 3] = some t ∧ 0 < t ∧
        ((run [.failure 1, .failure 2, .failure 3]).should_retry 40 30 = true ↔
          (30 : ℚ) ≤ 40 - t)) ∧
    ((run [.failure 1, .failure 2, .failure 3]).is_circuit_open = false →
      (run [.failure 1, .failure 2, .failure 3]).should_retry 40 30 = true) ∧
    (∀ h : ProviderHealth, ∀ u : ℚ, (h.record_success u).failures = 0 ∧
      (h.record_success u).is_circuit_open = false) :=
  circuit_breaker_spec [.failure 1, .failure 2, .failure 3] 40 30
    (by decide)

end ProviderHealth
end FksData

namespace FksData

theorem requestAux_allFail {V : Type} (base jitter : ℚ) (u : ℕ → ℚ)
    (http : ℕ → Except String V) (e : ℕ → String)
    (he : ∀ n, http n = .error (e n)) :
    ∀ (r a : ℕ), requestAux base jitter u http a r =
      .fetchError ("failed after " ++ toString (a + r + 1) ++ " attempts: " ++ e (a + r))
        (r + 1)
        ((List.range r).map
          (fun k => base * 2 ^ (a + k) + (if jitter ≠ 0 then u (a + k) * jitter else 0))) := by
  intro r
  induction r with
  | zero =>
    intro a
    simp [requestAux, he a]
  | succ r ih =>
    intro a
    rw [requestAux, he a]
    rw [ih (a + 1)]
    have h1 : a + 1 + r = a + (r + 1) := by omega
    rw [h1]
    have h2 : (List.range (r + 1)).map
        (fun k => base * 2 ^ (a + k) + (if jitter ≠ 0 then u (a + k) * jitter else 0)) =
        (base * 2 ^ a + (if jitter ≠ 0 then u a * jitter else 0)) ::
          (List.range r).map
            (fun k => base * 2 ^ (a + 1 + k) +
              (if jitter ≠ 0 then u (a + 1 + k) * jitter else 0)) := by
      rw [List.range_succ_eq_map, List.map_cons, List.map_map]
      congr 1
      apply List.map_congr_left
      intro k hk
      simp only [Function.comp_apply]
      have h3 : a + Nat.succ k = a + 1 + k := by omega
      rw [h3]
    rw [h2]

/-- C4 (confirmed): when every attempt raises, the HTTP call is executed
exactly `max_retries + 1` times, the failure surfaces as a
`DataFetchError`, the sleep before retry `n` (0-indexed) is
`base * 2 ^ n` plus `u n * jitter ∈ [0, jitter)`, and the configured
defaults are `max_retries = 2`, `base = 0.3` s, `jitter = 0.25` s. -/
theorem request_with_retries_all_fail {V : Type} (mr : ℕ) (base jitter : ℚ) (u : ℕ → ℚ)
    (http : ℕ → Except String V) (e : ℕ → String)
    (he : ∀ n, http n = .error (e n)) (hj : 0 < jitter) (hu : ∀ n, 0 ≤ u n ∧ u n < 1) :
    ∃ msg sleeps, request_with_retries mr base jitter u http = .fetchError msg (mr + 1) sleeps ∧
      sleeps.length = mr ∧
      (∀ n, n < mr → sleeps.getD n 0 = base * 2 ^ n + u n * jitter ∧
        0 ≤ u n * jitter ∧ u n * jitter < jitter) ∧
      defaultMaxRetries = 2 ∧ defaultBackoffBase = 3/10 ∧ defaultBackoffJitter = 1/4 := by
  have hjne : jitter ≠ 0 := ne_of_gt hj
  have hmain : request_with_retries mr base jitter u http =
      .fetchError ("failed after " ++ toString (0 + mr + 1) ++ " attempts: " ++ e (0 + mr))
        (mr + 1)
        ((List.range mr).map
          (fun k => base * 2 ^ (0 + k) + (if jitter ≠ 0 then u (0 + k) * jitter else 0))) := by
    unfold request_with_retries
    exact requestAux_allFail base jitter u http e he mr 0
  simp only [Nat.zero_add] at hmain
  refine ⟨_, _, hmain, ?_, ?_, rfl, rfl, rfl⟩
  · simp
  · intro n hn
    refine ⟨?_, ?_, ?_⟩
    · rw [List.getD_eq_getElem _ _ (by simpa using hn)]
      simp [hjne]
    · exact mul_nonneg (hu n).1 (le_of_lt hj)
    · calc u n * jitter < 1 * jitter := mul_lt_mul_of_pos_right (hu n).2 hj
        _ = jitter := one_mul jitter

/-- C4 witness: two retries with an always-failing client. -/
theorem request_with_retries_all_fail_witness :
    ∃ msg sleeps,
      request_with_retries 2 0 1 (fun _ => 0)
          (fun _ => (.error "boom" : Except String Unit)) = .fetchError msg (2 + 1) sleeps ∧
      sleeps.length = 2 ∧
      (∀ n, n < 2 → sleeps.getD n 0 = 0 * 2 ^ n + (fun _ : ℕ => (0 : ℚ)) n * 1 ∧
        (0 : ℚ) ≤ (fun _ : ℕ => (0 : ℚ)) n * 1 ∧ (fun _ : ℕ => (0 : ℚ)) n * 1 < 1) ∧
      defaultMaxRetries = 2 ∧ defaultBackoffBase = 3/10 ∧ defaultBackoffJitter = 1/4 :=
 by
  apply request_with_retries_all_fail 2 0 1 (fun _ => 0)
    (fun _ => (.error "boom" : Except String Unit)) (fun _ => "boom") (fun _ => rfl)
    (by decide)
  intro n
  exact ⟨by decide, by decide⟩

end FksData

namespace FksData

/-- C2 counterexample: on the sorted 10-row series 0..9 the three ranges
are [0,8], [8,9], [9,9]; with the inclusive bounds of `split_managed_csv`
the combined row count is 12, not 10. -/
theorem split_rows_counterexample :
    totalSplitRows [0, 1, 2, 3, 4, 5, 6, 7, 8, 9] = 12 ∧ (12 : ℕ) ≠ 10 ∧
    ([0, 1, 2, 3, 4, 5, 6, 7, 8, 9] : List ℚ).length = 10 := by
  refine ⟨by decide, by decide, by decide⟩

/-- Helper: on any list, when `a ≤ b` the count of `(· ≤ b)` splits into
the count of `(· < a)` and the count of the closed interval `[a, b]`. -/
theorem countP_le_split (s : List ℚ) (a b : ℚ) (hab : a ≤ b) :
    s.countP (fun x => decide (a ≤ x ∧ x ≤ b)) + s.countP (fun x => decide (x < a)) =
      s.countP (fun x => decide (x ≤ b)) := by
  induction s with
  | nil => simp
  | cons y tl ih =>
    simp only [List.countP_cons, decide_eq_true_eq]
    by_cases h1 : y ≤ b
    · by_cases h2 : y < a
      · have hno : ¬(a ≤ y ∧ y ≤ b) := fun hc => absurd h2 (not_lt.mpr hc.1)
        rw [if_pos h1, if_pos h2, if_neg hno]
        omega
      · have hyes : a ≤ y ∧ y ≤ b := ⟨not_lt.mp h2, h1⟩
        rw [if_pos h1, if_neg h2, if_pos hyes]
        omega
    · have hno : ¬(a ≤ y ∧ y ≤ b) := fun hc => h1 hc.2
      have h2 : ¬(y < a) := fun hlt => h1 (le_of_lt (lt_of_lt_of_le hlt hab))
      rw [if_neg h1, if_neg h2, if_neg hno]
      omega

/-- Helper: in a strictly sorted list, the elements `≤` the entry at
index `j` are exactly the first `j + 1`. -/
theorem countP_le_sorted (s : List ℚ) (hs : s.Sorted (· < ·)) (j : ℕ) (hj : j < s.length) :
    s.countP (fun x => decide (x ≤ s.getD j 0)) = j + 1 := by
  induction s generalizing j with
  | nil => simp at hj
  | cons y tl ih =>
    obtain ⟨hy, htl⟩ := List.sorted_cons.mp hs
    cases j with
    | zero =>
      simp only [List.getD_cons_zero, List.countP_cons, decide_eq_true_eq]
      have h0 : tl.countP (fun x => decide (x ≤ y)) = 0 := by
        rw [List.countP_eq_zero]
        intro x hx
        simp only [decide_eq_true_eq]
        exact not_le.mpr (hy x hx)
      simp [h0]
    | succ m =>
      have hm : m < tl.length := by simpa using hj
      have htarget : (y :: tl).getD (m + 1) 0 = tl.getD m 0 := by
        simp [List.getD_cons_succ]
      rw [htarget]
      have hmem : tl.getD m 0 ∈ tl := by
        rw [List.getD_eq_getElem _ _ hm]
        exact List.getElem_mem hm
      have hy' : y ≤ tl.getD m 0 := le_of_lt (hy _ hmem)
      simp only [List.countP_cons, decide_eq_true_eq]
      rw [ih htl m hm, if_pos hy']

/-- Helper: in a strictly sorted list, the elements `<` the entry at
index `i` are exactly the first `i`. -/
theorem countP_lt_sorted (s : List ℚ) (hs : s.Sorted (· < ·)) (i : ℕ) (hi : i < s.length) :
    s.countP (fun x => decide (x < s.getD i 0)) = i := by
  induction s generalizing i with
  | nil => simp at hi
  | cons y tl ih =>
    obtain ⟨hy, htl⟩ := List.sorted_cons.mp hs
    cases i with
    | zero =>
      simp only [List.getD_cons_zero, List.countP_cons, decide_eq_true_eq]
      have h0 : tl.countP (fun x => decide (x < y)) = 0 := by
        rw [List.countP_eq_zero]
        intro x hx
        simp only [decide_eq_true_eq]
        exact not_lt.mpr (le_of_lt (hy x hx))
      simp [h0]
    | succ m =>
      have hm : m < tl.length := by simpa using hi
      have htarget : (y :: tl).getD (m + 1) 0 = tl.getD m 0 := by
        simp [List.getD_cons_succ]
      rw [htarget]
      have hmem : tl.getD m 0 ∈ tl := by
        rw [List.getD_eq_getElem _ _ hm]
        exact List.getElem_mem hm
      have hy' : y < tl.getD m 0 := hy _ hmem
      simp only [List.countP_cons, decide_eq_true_eq]
      rw [ih htl m hm, if_pos hy']

/-- Helper: inclusive-bound row count between two sorted entries. -/
theorem splitRowCount_sorted (s : List ℚ) (hs : s.Sorted (· < ·)) (nm : String)
    (i j : ℕ) (hij : i ≤ j) (hj : j < s.length) :
    splitRowCount s ⟨nm, s.getD i 0, s.getD j 0⟩ = j + 1 - i := by
  have hi : i < s.length := lt_of_le_of_lt hij hj
  have hab : s.getD i 0 ≤ s.getD j 0 := by
    rcases eq_or_lt_of_le hij with rfl | hlt
    · exact le_refl _
    · have := List.pairwise_iff_get.mp hs ⟨i, hi⟩ ⟨j, hj⟩ (by simpa using hlt)
      rw [List.getD_eq_getElem _ _ hi, List.getD_eq_getElem _ _ hj]
      exact le_of_lt (by simpa [List.get_eq_getElem] using this)
  have hsplit := countP_le_split s (s.getD i 0) (s.getD j 0) hab
  have hle := countP_le_sorted s hs j hj
  have hlt := countP_lt_sorted s hs i hi
  have hcle : s.countP (fun x => decide (x ≤ s.getD j 0)) ≤ s.length :=
    List.countP_le_length _
  unfold splitRowCount
  rw [← List.countP_eq_length_filter]
  dsimp only
  omega

end FksData

namespace FksData

/-- C2 (corrected): on a strictly ascending non-empty series of length
`n`, `compute_time_splits` returns exactly three contiguous ranges
chained train → val → test, but consecutive ranges share their boundary
timestamp, so partitioning rows with the inclusive bounds of
`split_managed_csv` counts the two interior boundary rows twice: the
combined row count is `n + 2`, not `n`. -/
theorem compute_time_splits_amended (s : List ℚ) (hs : s.Sorted (· < ·)) (hne : s ≠ []) :
    ∃ r1 r2 r3 : SplitRange, compute_time_splits s = [r1, r2, r3] ∧
      r1.name = "train" ∧ r2.name = "val" ∧ r3.name = "test" ∧
      r1.end_ts = r2.start_ts ∧ r2.end_ts = r3.start_ts ∧
      totalSplitRows s = s.length + 2 := by
  have hn : 0 < s.length := List.length_pos.mpr hne
  have hit_le : s.length * 8 / 10 ≤ s.length * 9 / 10 :=
    Nat.div_le_div_right (by omega)
  have hiv_lt : s.length * 9 / 10 < s.length := by
    rw [Nat.div_lt_iff_lt_mul (by norm_num)]
    omega
  have hiv_le : s.length * 9 / 10 ≤ s.length - 1 := by omega
  have hsplits : compute_time_splits s =
      [⟨"train", s.getD 0 0, s.getD (s.length * 8 / 10) 0⟩,
       ⟨"val", s.getD (s.length * 8 / 10) 0, s.getD (s.length * 9 / 10) 0⟩,
       ⟨"test", s.getD (s.length * 9 / 10) 0, s.getD (s.length - 1) 0⟩] := by
    unfold compute_time_splits
    rw [if_neg hne]
  refine ⟨_, _, _, hsplits, rfl, rfl, rfl, rfl, rfl, ?_⟩
  unfold totalSplitRows
  rw [hsplits]
  simp only [List.map_cons, List.map_nil, List.sum_cons, List.sum_nil]
  rw [splitRowCount_sorted s hs "train" 0 (s.length * 8 / 10) (Nat.zero_le _)
      (lt_of_le_of_lt hit_le hiv_lt),
    splitRowCount_sorted s hs "val" (s.length * 8 / 10) (s.length * 9 / 10) hit_le hiv_lt,
    splitRowCount_sorted s hs "test" (s.length * 9 / 10) (s.length - 1) hiv_le
      (by omega)]
  omega

/-- C2 witness: the series 0..9 yields ranges with combined count 12. -/
theorem compute_time_splits_amended_witness :
    ∃ r1 r2 r3 : SplitRange,
      compute_time_splits [0, 1, 2, 3, 4, 5, 6, 7, 8, 9] = [r1, r2, r3] ∧
      r1.name = "train" ∧ r2.name = "val" ∧ r3.name = "test" ∧
      r1.end_ts = r2.start_ts ∧ r2.end_ts = r3.start_ts ∧
      totalSplitRows [0, 1, 2, 3, 4, 5, 6, 7, 8, 9] =
        ([0, 1, 2, 3, 4, 5, 6, 7, 8, 9] : List ℚ).length + 2 :=
  compute_time_splits_amended [0, 1, 2, 3, 4, 5, 6, 7, 8, 9]
    (by decide) (by decide)

end FksData

namespace FksData

/-- C7 counterexample: after ticks 100, 101, 100, 100 the recorded
directions are up, down, neutral. `get_binary_sequence 2` slices the last
two recorded changes before dropping neutrals and returns "0", while the
most recent two emitted symbols (the spec reading, `specBinarySequence`)
are "10". -/
theorem gbs_counterexample :
    DeltaScanner.get_binary_sequence
        (DeltaScanner.runScanner (DeltaScanner.init (1/100) (1/100000))
          [(0, "E", 100), (1, "E", 101), (2, "E", 100), (3, "E", 100)]) (some 2) = "0" ∧
    specBinarySequence
        (DeltaScanner.runScanner (DeltaScanner.init (1/100) (1/100000))
          [(0, "E", 100), (1, "E", 101), (2, "E", 100), (3, "E", 100)]) 2 = "10" ∧
    ("0" : String) ≠ "10" := by
  have hrun : DeltaScanner.runScanner (DeltaScanner.init (1/100) (1/100000))
      [(0, "E", 100), (1, "E", 101), (2, "E", 100), (3, "E", 100)] =
    { micro_threshold := 1/100
      min_change := 1/100000
      last_price := some 100
      changes := [⟨1, "E", 100, 101, 1, 1, .up, false⟩,
                  ⟨2, "E", 101, 100, -1, -100/101, .down, false⟩,
                  ⟨3, "E", 100, 100, 0, 0, .neutral, true⟩]
      total_changes := 3
      micro_changes := 1
      up_changes := 1
      down_changes := 1
      neutral_changes := 1 } := by
    unfold DeltaScanner.runScanner
    simp only [List.foldl]
    norm_num [DeltaScanner.scan_tick, DeltaScanner.init, ratAbs]
    decide
  rw [hrun]
  refine ⟨by decide, by decide, by decide⟩

theorem to_binary_eq_dirSymbol (c : PriceChange) :
    c.to_binary = dirSymbol c.direction := by
  cases h : c.direction <;> simp [PriceChange.to_binary, dirSymbol, h]

/-- Helper: one seeded `scan_tick` appends one change carrying the
pairwise direction, keeps `min_change`, and re-seeds `last_price`. -/
theorem scan_tick_seeded (st : DeltaScanner) (ts : ℕ) (sym : String) (price p : ℚ)
    (hp : st.last_price = some p) :
    ((st.scan_tick ts sym price).1.min_change = st.min_change) ∧
    ((st.scan_tick ts sym price).1.last_price = some price) ∧
    ((st.scan_tick ts sym price).1.changes.map (·.direction) =
      st.changes.map (·.direction) ++ [pairDirection st.min_change p price]) := by
  refine ⟨?_, ?_, ?_⟩ <;>
    simp [DeltaScanner.scan_tick, hp, pairDirection]

/-- Helper: a run from a seeded scanner appends exactly the pairwise
directions of the extended price trace. -/
theorem runScanner_changes_directions (ticks : List (ℕ × String × ℚ)) :
    ∀ (st : DeltaScanner) (p : ℚ), st.last_price = some p →
    ((DeltaScanner.runScanner st ticks).changes).map (·.direction) =
      st.changes.map (·.direction) ++
        traceDirections st.min_change (p :: ticks.map (fun t => t.2.2)) := by
  induction ticks with
  | nil =>
    intro st p hp
    simp [DeltaScanner.runScanner, traceDirections]
  | cons t rest ih =>
    intro st p hp
    obtain ⟨ts, sym, price⟩ := t
    have hrun : DeltaScanner.runScanner st ((ts, sym, price) :: rest) =
        DeltaScanner.runScanner (st.scan_tick ts sym price).1 rest := by
      simp [DeltaScanner.runScanner]
    obtain ⟨hm, hl, hc⟩ := scan_tick_seeded st ts sym price p hp
    rw [hrun, ih _ price hl, hm, hc]
    simp only [List.map_cons]
    rw [List.append_assoc]
    simp [traceDirections]

end FksData

namespace FksData

theorem runScanner_init_directions (mt mc : ℚ) (ticks : List (ℕ × String × ℚ)) :
    ((DeltaScanner.runScanner (DeltaScanner.init mt mc) ticks).changes).map (·.direction) =
      traceDirections mc (ticks.map (fun t => t.2.2)) := by
  cases ticks with
  | nil => simp [DeltaScanner.runScanner, DeltaScanner.init, traceDirections]
  | cons t rest =>
    obtain ⟨ts, sym, price⟩ := t
    have hstep : DeltaScanner.runScanner (DeltaScanner.init mt mc) ((ts, sym, price) :: rest) =
        DeltaScanner.runScanner
          { DeltaScanner.init mt mc with last_price := some price } rest := by
      simp [DeltaScanner.runScanner, DeltaScanner.scan_tick, DeltaScanner.init]
    rw [hstep]
    rw [runScanner_changes_directions rest
      { DeltaScanner.init mt mc with last_price := some price } price rfl]
    simp [DeltaScanner.init]

theorem gbs_eq_encode (st : DeltaScanner) (m : ℕ) (hm : m ≠ 0) :
    DeltaScanner.get_binary_sequence st (some m) =
      encodeDirections ((st.changes.map (·.direction)).drop (st.changes.length - m)) := by
  unfold DeltaScanner.get_binary_sequence encodeDirections
  dsimp only
  rw [if_pos hm]
  congr 1
  rw [← List.map_drop]
  generalize st.changes.drop (st.changes.length - m) = cs
  induction cs with
  | nil => rfl
  | cons c tl ih =>
    by_cases h : c.direction = PriceDirection.neutral
    · simpa [List.filter_cons, h, PriceChange.to_binary] using ih
    · simpa [List.filter_cons, h, to_binary_eq_dirSymbol] using ih

/-- C7 (corrected): for a scanner fed any tick trace,
`get_binary_sequence(max_length)` encodes (1 up, 0 down, neutrals
dropped) the directions of the `max_length` most recently recorded
changes — neutral changes occupy slots in that slice, so the result can
omit recent symbols and is not the most recent `max_length` symbols. -/
theorem get_binary_sequence_amended (mt mc : ℚ) (ticks : List (ℕ × String × ℚ)) (m : ℕ)
    (hm : m ≠ 0) :
    DeltaScanner.get_binary_sequence (DeltaScanner.runScanner (DeltaScanner.init mt mc) ticks)
        (some m) =
      encodeDirections ((traceDirections mc (ticks.map (fun t => t.2.2))).drop
        ((traceDirections mc (ticks.map (fun t => t.2.2))).length - m)) := by
  have hdir := runScanner_init_directions mt mc ticks
  have hlen : (DeltaScanner.runScanner (DeltaScanner.init mt mc) ticks).changes.length =
      (traceDirections mc (ticks.map (fun t => t.2.2))).length := by
    rw [← hdir, List.length_map]
  rw [gbs_eq_encode _ m hm, hlen, hdir]

/-- C7 witness: the empty trace instantiates the correspondence. -/
theorem get_binary_sequence_amended_witness :
    DeltaScanner.get_binary_sequence
        (DeltaScanner.runScanner (DeltaScanner.init 1 1) []) (some 1) =
      encodeDirections ((traceDirections 1 (([] : List (ℕ × String × ℚ)).map
        (fun t => t.2.2))).drop
        ((traceDirections 1 (([] : List (ℕ × String × ℚ)).map (fun t => t.2.2))).length - 1)) :=
  get_binary_sequence_amended 1 1 [] 1 (by decide)

end FksData
